import Mathlib

/-!
Verification of the `cetl` stream multiplexer and boundary-aware CSV record
decoder.

The multiplexer (`connector.muxReader` / `NewMuxReader`) is embedded as a
deterministic producer over an ordered list of sources: each source is a name
plus an open result, and an opened source is a list of read steps, each read
step being the bytes returned by one `Read` call together with its error
(`nil`, `io.EOF`, or a failure).  The producer's observable behaviour is a
trace of events (boundary publications, byte chunks written to the pipe, and a
terminal `CloseWithError` message), the final published `SrcMeta` snapshot,
and the terminal error surfaced through `Read`.

The CSV decoder (`transform.csvDecoder` / `csvRowIterator`) is embedded at the
row level: the input is the sequence of results of `csvReader.Read()` calls,
each paired with the `SrcMeta` observed from `rc.Current()` immediately after
that read.  `csvNextLoop` mirrors the classification loop of
`csvRowIterator.Next` statement by statement, with a fuel parameter standing
for the number of loop iterations (`none` models non-termination).
-/

namespace Cetl

/-- `connector.SrcMeta`: the active source name and the number of bytes of it
delivered so far (`int64` in Go, embedded as `Int`). -/
structure SrcMeta where
  Name : String
  ByteOffset : Int
deriving DecidableEq, Repr

/-- Error produced by one `Read` call of an opened source: end of stream
(`io.EOF`) or a failure with a message. -/
inductive ReadErr where
  | eof
  | fail (msg : String)
deriving DecidableEq, Repr

/-- One call of `rc.Read(buf)` on an opened source: the bytes it returned
(`n = data.length`) and the error returned alongside them. -/
structure ReadStep where
  data : List Char
  err : Option ReadErr
deriving DecidableEq, Repr

deriving instance DecidableEq for Except

/-- `opener.Opener` as the multiplexer sees it: a display name and the result
of `Open` — either an error or the sequence of read results the opened stream
will produce.  An exhausted read list behaves like `io.EOF`. -/
structure Opener where
  name : String
  openResult : Except String (List ReadStep)
deriving DecidableEq, Repr

/-- Observable producer actions of the multiplexer goroutine, in order:
a boundary publication (`overwriteLatest` on the boundary channel), a chunk of
bytes written to the pipe (tagged with the source that produced it), and a
terminal `CloseWithError` message. -/
inductive MuxEvent where
  | boundary (m : SrcMeta)
  | data (srcName : String) (bytes : List Char)
  | fail (msg : String)
deriving DecidableEq, Repr

/-- The inner streaming loop of the `NewMuxReader` goroutine for one opened
source: repeatedly `Read`; if `n > 0`, write the bytes to the pipe and advance
the offset before inspecting the error; `io.EOF` ends the source cleanly; any
other error closes the pipe with `"read <name>: <err>"`.  Returns the emitted
events, the total bytes delivered from this source, and the terminal error if
any. -/
def streamLoop (name : String) : List ReadStep → List MuxEvent × Nat × Option String
  | [] => ([], 0, none)
  | step :: rest =>
    let evs : List MuxEvent := if step.data.isEmpty then [] else [.data name step.data]
    let n := step.data.length
    match step.err with
    | some .eof => (evs, n, none)
    | some (.fail e) =>
        (evs ++ [.fail ("read " ++ name ++ ": " ++ e)], n,
          some ("read " ++ name ++ ": " ++ e))
    | none =>
        let r := streamLoop name rest
        (evs ++ r.1, n + r.2.1, r.2.2)

/-- The observable outcome of a full run of the producer goroutine: the event
trace, the final value held by the `current` atomic (`none` when nothing was
ever stored), and the terminal error surfaced through `Read`
(`none` = clean `io.EOF`). -/
structure MuxRun where
  trace : List MuxEvent
  finalCurrent : Option SrcMeta
  terminalErr : Option String
deriving DecidableEq, Repr

/-- The outer loop of the `NewMuxReader` goroutine: open each source in list
order; an open failure closes the pipe with `"open <name>: <err>"` and aborts;
otherwise store `{name, 0}` in `current`, publish it as a boundary, and stream
the source's bytes. -/
def muxGo (cur : Option SrcMeta) : List Opener → MuxRun
  | [] => ⟨[], cur, none⟩
  | op :: rest =>
    match op.openResult with
    | .error e =>
        let msg := "open " ++ op.name ++ ": " ++ e
        ⟨[.fail msg], cur, some msg⟩
    | .ok reads =>
        let r := streamLoop op.name reads
        let endMeta : SrcMeta := ⟨op.name, (r.2.1 : Int)⟩
        match r.2.2 with
        | some e => ⟨.boundary ⟨op.name, 0⟩ :: r.1, some endMeta, some e⟩
        | none =>
            let tail := muxGo (some endMeta) rest
            ⟨.boundary ⟨op.name, 0⟩ :: r.1 ++ tail.trace, tail.finalCurrent, tail.terminalErr⟩

/-- The complete producer run for `NewMuxReader(ctx, ops)`: starts with an
empty `current` atomic. -/
def muxRun (ops : List Opener) : MuxRun := muxGo none ops

/-- Bytes the consumer obtains by fully draining `Read`: the concatenation of
all chunks written to the pipe, in trace order. -/
def muxBytes : List MuxEvent → List Char
  | [] => []
  | .data _ b :: rest => b ++ muxBytes rest
  | .boundary _ :: rest => muxBytes rest
  | .fail _ :: rest => muxBytes rest

/-- The boundary publications of a trace, in order. -/
def muxBoundaries : List MuxEvent → List SrcMeta
  | [] => []
  | .boundary m :: rest => m :: muxBoundaries rest
  | .data _ _ :: rest => muxBoundaries rest
  | .fail _ :: rest => muxBoundaries rest

/-- `muxReader.Current`: the latest stored `SrcMeta`, or the zero value when
the atomic has never been stored. -/
def Current (cur : Option SrcMeta) : SrcMeta :=
  match cur with
  | none => ⟨"", 0⟩
  | some m => m

/-- `overwriteLatest` on the capacity-1 boundary channel, buffer modelled as a
list of length at most 1: try to send; when the buffer is full, drop the
oldest value and retry. -/
def overwriteLatest (buf : List SrcMeta) (v : SrcMeta) : List SrcMeta :=
  match buf with
  | [] => [v]
  | _ :: rest => overwriteLatest rest v

/-- The boundary channel: its buffered values and whether it has been
closed. -/
structure Mailbox where
  buf : List SrcMeta
  closed : Bool
deriving DecidableEq, Repr

/-- `drainAndCloseChannel`: receive until the buffer is empty, then close. -/
def drainAndCloseChannel (buf : List SrcMeta) : Mailbox :=
  match buf with
  | _ :: rest => drainAndCloseChannel rest
  | [] => ⟨[], true⟩

/-- Result of one `AwaitBoundary` call: a boundary value, clean end of stream
(`io.EOF` after the channel is closed and empty), or a would-block state (the
channel is open and empty, so the select waits). -/
inductive AwaitResult where
  | got (m : SrcMeta)
  | eofReached
  | wouldBlock
deriving DecidableEq, Repr

/-- `muxReader.AwaitBoundary`: receive from the boundary channel; a closed and
empty channel yields `io.EOF`. -/
def AwaitBoundary (mb : Mailbox) : AwaitResult × Mailbox :=
  match mb.buf with
  | v :: rest => (.got v, ⟨rest, mb.closed⟩)
  | [] => if mb.closed then (.eofReached, mb) else (.wouldBlock, mb)

/-- The boundary channel state after the producer goroutine finishes without
the consumer ever receiving: every boundary of the run was published with
`overwriteLatest`, then the deferred `drainAndCloseChannel` ran. -/
def mailboxAfterRun (ops : List Opener) : Mailbox :=
  drainAndCloseChannel ((muxBoundaries (muxRun ops).trace).foldl overwriteLatest [])

/-- Whether a read-step list streams to a clean `io.EOF` (no failing read
reached). -/
def readsClean : List ReadStep → Bool
  | [] => true
  | step :: rest =>
    match step.err with
    | some .eof => true
    | some (.fail _) => false
    | none => readsClean rest

/-- The bytes a read-step list delivers before its first terminating step. -/
def payloadOf : List ReadStep → List Char
  | [] => []
  | step :: rest =>
    match step.err with
    | some .eof => step.data
    | some (.fail _) => step.data
    | none => step.data ++ payloadOf rest

/-- A source that opens successfully. -/
def opensOk (op : Opener) : Bool :=
  match op.openResult with
  | .ok _ => true
  | .error _ => false

/-- A source that opens successfully and streams to a clean `io.EOF`. -/
def opClean (op : Opener) : Bool :=
  match op.openResult with
  | .error _ => false
  | .ok reads => readsClean reads

/-- The full payload of a source (empty for a source that fails to open). -/
def srcPayload (op : Opener) : List Char :=
  match op.openResult with
  | .error _ => []
  | .ok reads => payloadOf reads

/-- The event segment one source contributes to the trace: its boundary
publication followed by its streaming events (or a lone open failure). -/
def srcSegment (op : Opener) : List MuxEvent :=
  match op.openResult with
  | .error e => [.fail ("open " ++ op.name ++ ": " ++ e)]
  | .ok reads => .boundary ⟨op.name, 0⟩ :: (streamLoop op.name reads).1

/-- The `current` snapshot after cleanly streaming a list of sources. -/
def curAfter (cur : Option SrcMeta) : List Opener → Option SrcMeta
  | [] => cur
  | op :: rest => curAfter (some ⟨op.name, ((srcPayload op).length : Int)⟩) rest

/-- The data events a list of error-free read steps contributes, in order. -/
def muxDataEvents (name : String) : List ReadStep → List MuxEvent
  | [] => []
  | step :: rest =>
    (if step.data.isEmpty then [] else [MuxEvent.data name step.data]) ++
      muxDataEvents name rest

/-! ## CSV decoder (transform.csvDecoder / csvRowIterator) -/

/-- Error returned by one `csvReader.Read()` call: `io.EOF`, or any other
error (malformed row, field count not matching `FieldsPerRecord`, or an
underlying stream error). -/
inductive RowErr where
  | eof
  | parseFail (msg : String)
deriving DecidableEq, Repr

/-- One `csvReader.Read()` call as the iterator observes it: the row (or
error) it returned, paired with the `SrcMeta` obtained from
`srcAwareStream.Current()` immediately afterwards. -/
structure RowRead where
  row : Except RowErr (List String)
  meta : SrcMeta
deriving DecidableEq, Repr

/-- The mutable state of a `csvRowIterator`, plus the remaining row reads the
underlying `csv.Reader` will produce (an exhausted list reads as `io.EOF`
with an unchanged `Current()` snapshot). -/
structure CsvIterState where
  header : List String
  atStart : Bool
  hasPending : Bool
  pending : List String
  pendingSrcMeta : SrcMeta
  current : List String
  currentSrcMeta : SrcMeta
  lastSourceMeta : SrcMeta
  decoderError : Option String
  input : List RowRead
deriving DecidableEq, Repr

/-- `csvRowIterator.isheader`: the row matches the canonical header exactly
(same length, same field names at each position). -/
def isheader (header row : List String) : Bool :=
  header.length == row.length && (header.zip row).all fun p => p.1 == p.2

/-- `csvRowIterator.isSourceStart`: the observed metadata signals the start of
a new source relative to the last observed metadata. -/
def isSourceStart (last meta : SrcMeta) : Bool :=
  if last.Name == "" then true
  else if meta.Name != last.Name then true
  else meta.ByteOffset == 0 && last.ByteOffset != 0

/-- The loop body of `validateHeader`, with the set of already-seen names. -/
def validateHeaderGo (seen : List String) : List String → Option String
  | [] => none
  | name :: rest =>
    if name ∈ seen then some ("duplicate entry " ++ name)
    else validateHeaderGo (name :: seen) rest

/-- `validateHeader`: reports the first duplicated field name, `none` when all
names are unique. -/
def validateHeader (h : List String) : Option String :=
  validateHeaderGo [] h

/-- The classification loop of `csvRowIterator.Next`, one constructor case per
branch of the Go loop body; `fuel` bounds the number of iterations and
`none` models a loop that does not terminate within it. -/
def csvNextLoop : Nat → CsvIterState → Option (Bool × CsvIterState)
  | 0, _ => none
  | fuel + 1, st =>
    if st.hasPending then
      some (true, { st with current := st.pending, currentSrcMeta := st.pendingSrcMeta,
                            hasPending := false })
    else
      match st.input with
      | [] =>
        if st.atStart || isSourceStart st.lastSourceMeta st.lastSourceMeta then
          csvNextLoop fuel { st with atStart := false }
        else
          some (false, st)
      | rr :: rest =>
        let stIn := { st with input := rest }
        if st.atStart || isSourceStart st.lastSourceMeta rr.meta then
          match rr.row with
          | .error .eof =>
              csvNextLoop fuel { stIn with atStart := false, lastSourceMeta := rr.meta }
          | .error (.parseFail m) =>
              some (false, { stIn with atStart := true, decoderError := some m })
          | .ok row =>
              if isheader st.header row then
                csvNextLoop fuel { stIn with atStart := false, lastSourceMeta := rr.meta }
              else
                csvNextLoop fuel { stIn with atStart := false, hasPending := true,
                                             pending := row, pendingSrcMeta := rr.meta }
        else
          match rr.row with
          | .error .eof => some (false, stIn)
          | .error (.parseFail m) => some (false, { stIn with decoderError := some m })
          | .ok row =>
              some (true, { stIn with current := row, currentSrcMeta := rr.meta,
                                      lastSourceMeta := rr.meta })

/-- `csvRowIterator.Next`: sticky-error check, defensive empty-header check,
then the classification loop. -/
def csvNext (fuel : Nat) (st : CsvIterState) : Option (Bool × CsvIterState) :=
  match st.decoderError with
  | some _ => some (false, st)
  | none =>
    if st.header.isEmpty then
      some (false,
        { st with decoderError := some "Header not provided and failed to infer from stream." })
    else
      csvNextLoop fuel st

/-- `csvRowIterator.Err`: the sticky decoder error. -/
def Err (st : CsvIterState) : Option String :=
  st.decoderError

/-- The iterator state `csvDecoder.Decode` constructs for a canonical header
`h`, remaining input `inp` and the `rc.Current()` snapshot `m` taken at
construction time. -/
def initIterState (h : List String) (inp : List RowRead) (m : SrcMeta) : CsvIterState :=
  { header := h, atStart := false, hasPending := false, pending := [],
    pendingSrcMeta := ⟨"", 0⟩, current := List.replicate h.length "",
    currentSrcMeta := ⟨"", 0⟩, lastSourceMeta := m, decoderError := none, input := inp }

/-- `csvDecoder.Decode`: when no explicit header is configured, read the first
record and adopt it as the canonical header (failing when the stream produces
no row); then reject a header with duplicate names; otherwise build the
iterator.  `initMeta` is the `rc.Current()` snapshot at decode time. -/
def csvDecode (optHeader : List String) (input : List RowRead) (initMeta : SrcMeta) :
    Except String CsvIterState :=
  if optHeader.isEmpty then
    match input with
    | [] => .error "unable to infer header from first record: EOF"
    | rr :: rest =>
      match rr.row with
      | .error .eof => .error "unable to infer header from first record: EOF"
      | .error (.parseFail m) => .error ("unable to infer header from first record: " ++ m)
      | .ok firstRec =>
        match validateHeader firstRec with
        | some m => .error ("malformed header: " ++ m)
        | none => .ok (initIterState firstRec rest rr.meta)
  else
    match validateHeader optHeader with
    | some m => .error ("malformed header: " ++ m)
    | none => .ok (initIterState optHeader input initMeta)

/-! ## Helper lemmas -/

theorem isheader_eq_true_iff : ∀ (h r : List String), isheader h r = true ↔ h = r
  | [], [] => by simp [isheader]
  | [], _ :: _ => by simp [isheader]
  | _ :: _, [] => by simp [isheader]
  | a :: h, b :: r => by
    have ih := isheader_eq_true_iff h r
    simp only [isheader, List.length_cons, List.zip_cons_cons, List.all_cons,
      Bool.and_eq_true, beq_iff_eq, Nat.add_right_cancel_iff, List.cons.injEq] at ih ⊢
    constructor
    · rintro ⟨hlen, hab, hall⟩
      exact ⟨hab, ih.mp ⟨hlen, hall⟩⟩
    · rintro ⟨hab, htail⟩
      rcases ih.mpr htail with ⟨hlen, hall⟩
      exact ⟨hlen, hab, hall⟩

theorem isheader_self (h : List String) : isheader h h = true :=
  (isheader_eq_true_iff h h).mpr rfl

theorem isheader_eq_false_of_ne (h r : List String) (hne : r ≠ h) :
    isheader h r = false := by
  cases hv : isheader h r
  · rfl
  · exact absurd ((isheader_eq_true_iff h r).mp hv).symm hne

theorem isSourceStart_self (m : SrcMeta) (hname : m.Name ≠ "") :
    isSourceStart m m = false := by
  rw [isSourceStart, if_neg (by simpa using hname), if_neg (by simp)]
  cases hz : m.ByteOffset == 0
  · simp [hz]
  · simp [bne, hz]

theorem validateHeaderGo_eq_none_iff :
    ∀ (h seen : List String),
      validateHeaderGo seen h = none ↔ h.Nodup ∧ ∀ x ∈ h, x ∉ seen
  | [], seen => by simp [validateHeaderGo]
  | name :: rest, seen => by
    by_cases hm : name ∈ seen
    · simp [validateHeaderGo, hm]
    · rw [validateHeaderGo, if_neg hm, validateHeaderGo_eq_none_iff rest (name :: seen)]
      constructor
      · rintro ⟨hnd, hs⟩
        have hnm : name ∉ rest := fun hx => hs name hx (List.mem_cons_self name seen)
        refine ⟨List.nodup_cons.mpr ⟨hnm, hnd⟩, ?_⟩
        intro x hx2
        rcases List.mem_cons.mp hx2 with hxe | hxr
        · exact hxe ▸ hm
        · exact fun hxs => hs x hxr (List.mem_cons_of_mem _ hxs)
      · rintro ⟨hnd, hs⟩
        rcases List.nodup_cons.mp hnd with ⟨hnm, hnd2⟩
        refine ⟨hnd2, ?_⟩
        intro x hx hxs
        rcases List.mem_cons.mp hxs with hxe | hxs2
        · exact hnm (hxe ▸ hx)
        · exact hs x (List.mem_cons_of_mem _ hx) hxs2

theorem validateHeader_eq_none_iff (h : List String) :
    validateHeader h = none ↔ h.Nodup := by
  rw [validateHeader, validateHeaderGo_eq_none_iff]
  simp

theorem validateHeader_of_dup (h : List String) (hd : ¬ h.Nodup) :
    ∃ msg, validateHeader h = some msg := by
  cases hv : validateHeader h
  · exact absurd ((validateHeader_eq_none_iff h).mp hv) hd
  · exact ⟨_, rfl⟩

theorem csvNext_eq_loop (fuel : Nat) (st : CsvIterState)
    (he : st.decoderError = none) (hh : st.header ≠ []) :
    csvNext fuel st = csvNextLoop fuel st := by
  have hie : st.header.isEmpty = false := by
    cases hH : st.header
    · exact absurd hH hh
    · rfl
  simp [csvNext, he, hie]

theorem csvNextLoop_pending (n : Nat) (st : CsvIterState) (h : st.hasPending = true) :
    csvNextLoop (n + 1) st =
      some (true, { st with current := st.pending, currentSrcMeta := st.pendingSrcMeta,
                            hasPending := false }) := by
  simp [csvNextLoop, h]

theorem csvNextLoop_discard_header (n : Nat) (st : CsvIterState)
    (row : List String) (meta : SrcMeta) (rest : List RowRead)
    (hp : st.hasPending = false)
    (hin : st.input = ⟨.ok row, meta⟩ :: rest)
    (hb : (st.atStart || isSourceStart st.lastSourceMeta meta) = true)
    (hdr : isheader st.header row = true) :
    csvNextLoop (n + 1) st =
      csvNextLoop n { st with input := rest, atStart := false, lastSourceMeta := meta } := by
  simp [csvNextLoop, hp, hin, hb, hdr]

theorem csvNextLoop_push_back (n : Nat) (st : CsvIterState)
    (row : List String) (meta : SrcMeta) (rest : List RowRead)
    (hp : st.hasPending = false)
    (hin : st.input = ⟨.ok row, meta⟩ :: rest)
    (hb : (st.atStart || isSourceStart st.lastSourceMeta meta) = true)
    (hdr : isheader st.header row = false) :
    csvNextLoop (n + 1) st =
      csvNextLoop n { st with input := rest, atStart := false, hasPending := true,
                              pending := row, pendingSrcMeta := meta } := by
  simp [csvNextLoop, hp, hin, hb, hdr]

theorem csvNextLoop_start_eof (n : Nat) (st : CsvIterState)
    (meta : SrcMeta) (rest : List RowRead)
    (hp : st.hasPending = false)
    (hin : st.input = ⟨.error .eof, meta⟩ :: rest)
    (hb : (st.atStart || isSourceStart st.lastSourceMeta meta) = true) :
    csvNextLoop (n + 1) st =
      csvNextLoop n { st with input := rest, atStart := false, lastSourceMeta := meta } := by
  simp [csvNextLoop, hp, hin, hb]

theorem csvNextLoop_normal_serve (n : Nat) (st : CsvIterState)
    (row : List String) (meta : SrcMeta) (rest : List RowRead)
    (hp : st.hasPending = false)
    (hin : st.input = ⟨.ok row, meta⟩ :: rest)
    (hb : (st.atStart || isSourceStart st.lastSourceMeta meta) = false) :
    csvNextLoop (n + 1) st =
      some (true, { st with input := rest, current := row, currentSrcMeta := meta,
                            lastSourceMeta := meta }) := by
  simp [csvNextLoop, hp, hin, hb]

theorem csvNextLoop_normal_eof (n : Nat) (st : CsvIterState)
    (meta : SrcMeta) (rest : List RowRead)
    (hp : st.hasPending = false)
    (hin : st.input = ⟨.error .eof, meta⟩ :: rest)
    (hb : (st.atStart || isSourceStart st.lastSourceMeta meta) = false) :
    csvNextLoop (n + 1) st = some (false, { st with input := rest }) := by
  simp [csvNextLoop, hp, hin, hb]

theorem csvNextLoop_exhausted (n : Nat) (st : CsvIterState)
    (hp : st.hasPending = false) (hin : st.input = [])
    (hb : (st.atStart || isSourceStart st.lastSourceMeta st.lastSourceMeta) = false) :
    csvNextLoop (n + 1) st = some (false, st) := by
  simp [csvNextLoop, hp, hin, hb]

/-- The state after the iterator records a parse error: the row is consumed,
`atStart` keeps the value the classification check just gave it, and the
error becomes sticky. -/
def parseErrState (st : CsvIterState) (m : String) (meta : SrcMeta)
    (rest : List RowRead) : CsvIterState :=
  { st with input := rest, atStart := st.atStart || isSourceStart st.lastSourceMeta meta,
            decoderError := some m }

theorem csvNextLoop_parse_error (n : Nat) (st : CsvIterState)
    (m : String) (meta : SrcMeta) (rest : List RowRead)
    (hp : st.hasPending = false)
    (hin : st.input = ⟨.error (.parseFail m), meta⟩ :: rest) :
    csvNextLoop (n + 1) st = some (false, parseErrState st m meta rest) := by
  cases hb : st.atStart || isSourceStart st.lastSourceMeta meta
  · simp only [parseErrState, hb]
    simp [csvNextLoop, hp, hin, hb]
    rcases Bool.or_eq_false_iff.mp hb with ⟨ha, _⟩
    simp [ha]
  · simp only [parseErrState, hb]
    simp [csvNextLoop, hp, hin, hb]

/-! ## Claim theorems: decoder -/

/-- Canonical header used by the concrete decoder scenarios. -/
def hdrCols : List String := ["col1", "col2"]

/-- Decoder state mid-session: canonical header `{col1,col2}`, the last record
of source `S1` just served, and source `S2` about to begin with two
consecutive rows both identical to the canonical header, then `io.EOF`. -/
def c1State : CsvIterState :=
  { header := hdrCols, atStart := false, hasPending := false, pending := [],
    pendingSrcMeta := ⟨"", 0⟩, current := ["a1", "b1"], currentSrcMeta := ⟨"S1", 12⟩,
    lastSourceMeta := ⟨"S1", 12⟩, decoderError := none,
    input := [⟨.ok hdrCols, ⟨"S2", 12⟩⟩, ⟨.ok hdrCols, ⟨"S2", 24⟩⟩,
              ⟨.error .eof, ⟨"S2", 24⟩⟩] }

/-- C1 counterexample.  The claim says that after discarding a header-identical
first row the decoder "stays in the source-start classification state to
classify the next row of the same source" — which would discard a second
consecutive header-identical row as well, so this `Next` would have to report
no record.  Instead the code clears `atStart` after the discard, classifies
the second row on the normal path, and serves the header-identical row
`["col1", "col2"]` as a data record with `atStart = false`. -/
theorem c1_claim_counterexample :
    (csvNext 8 c1State).map (fun p => (p.1, p.2.current, p.2.atStart)) =
      some (true, ["col1", "col2"], false) := by
  rfl

/-- C1 (amended): when the first row read after a detected source start
exactly matches the canonical header, the decoder discards it and serves it
to no caller — the advance behaves exactly as it would on the remaining input
with the source-start flag cleared and the metadata recorded — so the next
row of the same source is classified by the boundary check alone (one header
row is discarded per source start); and a source that is empty after its
header produces no record and no error, with decoding moving on past it. -/
theorem header_first_row_discarded
    (st : CsvIterState) (meta : SrcMeta) (rest : List RowRead)
    (hp : st.hasPending = false) (he : st.decoderError = none) (hh : st.header ≠ [])
    (hin : st.input = ⟨.ok st.header, meta⟩ :: rest)
    (hs : st.atStart = true ∨ isSourceStart st.lastSourceMeta meta = true) :
    (∀ n : Nat,
      csvNext (n + 1) st =
        csvNextLoop n { st with input := rest, atStart := false, lastSourceMeta := meta }) ∧
    (meta.Name ≠ "" → rest = [] →
      ∀ n : Nat,
        csvNext (n + 2) st =
            some (false, { st with input := [], atStart := false, lastSourceMeta := meta }) ∧
          Err { st with input := [], atStart := false, lastSourceMeta := meta } = none) := by
  have hb : (st.atStart || isSourceStart st.lastSourceMeta meta) = true := by
    rcases hs with h | h <;> simp [h]
  have hstep : ∀ n : Nat,
      csvNext (n + 1) st =
        csvNextLoop n { st with input := rest, atStart := false, lastSourceMeta := meta } := by
    intro n
    rw [csvNext_eq_loop (n + 1) st he hh,
      csvNextLoop_discard_header n st st.header meta rest hp hin hb (isheader_self _)]
  refine ⟨hstep, ?_⟩
  intro hname hrest n
  have h2 := hstep (n + 1)
  rw [hrest] at h2
  have h3 := csvNextLoop_exhausted n
      { st with input := [], atStart := false, lastSourceMeta := meta }
      hp rfl (by simp [isSourceStart_self meta hname])
  rw [h2, h3]
  exact ⟨rfl, he⟩

/-- Witness for the amended C1 at a concrete input: source `S2` consists of
exactly one row, identical to the canonical header; the advance discards it,
reports no record, and leaves no error. -/
def c1WitnessState : CsvIterState :=
  { c1State with input := [⟨.ok hdrCols, ⟨"S2", 12⟩⟩] }

theorem header_first_row_discarded_witness :
    csvNext 3 c1WitnessState =
        some (false, { c1WitnessState with input := [], atStart := false,
                                           lastSourceMeta := ⟨"S2", 12⟩ }) ∧
      Err { c1WitnessState with input := [], atStart := false,
                                lastSourceMeta := ⟨"S2", 12⟩ } = none :=
  (header_first_row_discarded c1WitnessState ⟨"S2", 12⟩ [] rfl rfl
      (by decide) rfl (Or.inr (by decide))).2 (by decide) rfl 1

/-- C2: a first row read after a detected source start that differs from the
canonical header (same field count) is never discarded: the classification
advance stores it in the one-slot pushback buffer together with the metadata
observed at classification time, the following loop advance serves exactly
that row with that metadata, and the whole `Next` call serves it before any
later row of the input is touched. -/
theorem nonmatching_first_row_served
    (st : CsvIterState) (r : List String) (meta : SrcMeta) (rest : List RowRead)
    (hp : st.hasPending = false) (he : st.decoderError = none) (hh : st.header ≠ [])
    (hin : st.input = ⟨.ok r, meta⟩ :: rest)
    (hs : st.atStart = true ∨ isSourceStart st.lastSourceMeta meta = true)
    (hlen : r.length = st.header.length) (hne : r ≠ st.header) (n : Nat) :
    (csvNextLoop (n + 2) st =
        csvNextLoop (n + 1)
          { st with input := rest, atStart := false, hasPending := true,
                    pending := r, pendingSrcMeta := meta }) ∧
    (∀ m : Nat,
      csvNextLoop (m + 1)
          { st with input := rest, atStart := false, hasPending := true,
                    pending := r, pendingSrcMeta := meta } =
        some (true,
          { st with input := rest, atStart := false, hasPending := false,
                    pending := r, pendingSrcMeta := meta,
                    current := r, currentSrcMeta := meta })) ∧
    csvNext (n + 2) st =
      some (true,
        { st with input := rest, atStart := false, hasPending := false,
                  pending := r, pendingSrcMeta := meta,
                  current := r, currentSrcMeta := meta }) := by
  have hb : (st.atStart || isSourceStart st.lastSourceMeta meta) = true := by
    rcases hs with h | h <;> simp [h]
  have hdr : isheader st.header r = false := isheader_eq_false_of_ne st.header r hne
  have h1 := csvNextLoop_push_back (n + 1) st r meta rest hp hin hb hdr
  have h2 : ∀ m : Nat,
      csvNextLoop (m + 1)
          { st with input := rest, atStart := false, hasPending := true,
                    pending := r, pendingSrcMeta := meta } =
        some (true,
          { st with input := rest, atStart := false, hasPending := false,
                    pending := r, pendingSrcMeta := meta,
                    current := r, currentSrcMeta := meta }) := by
    intro m
    exact csvNextLoop_pending m _ rfl
  refine ⟨h1, h2, ?_⟩
  rw [csvNext_eq_loop (n + 2) st he hh, h1, h2 n]

/-- Witness for C2 at a concrete input: source `S2` starts with `["x", "y"]`,
which differs from the canonical header; `Next` serves it with the
classification-time metadata `⟨S2, 18⟩` while the later row is untouched. -/
def c2WitnessState : CsvIterState :=
  { header := hdrCols, atStart := false, hasPending := false, pending := [],
    pendingSrcMeta := ⟨"", 0⟩, current := ["a1", "b1"], currentSrcMeta := ⟨"S1", 18⟩,
    lastSourceMeta := ⟨"S1", 18⟩, decoderError := none,
    input := [⟨.ok ["x", "y"], ⟨"S2", 18⟩⟩, ⟨.ok ["a2", "b2"], ⟨"S2", 28⟩⟩] }

theorem nonmatching_first_row_served_witness :
    csvNext 3 c2WitnessState =
      some (true,
        { c2WitnessState with input := [⟨.ok ["a2", "b2"], ⟨"S2", 28⟩⟩],
                              atStart := false, hasPending := false,
                              pending := ["x", "y"], pendingSrcMeta := ⟨"S2", 18⟩,
                              current := ["x", "y"], currentSrcMeta := ⟨"S2", 18⟩ }) :=
  (nonmatching_first_row_served c2WitnessState ["x", "y"] ⟨"S2", 18⟩
      [⟨.ok ["a2", "b2"], ⟨"S2", 28⟩⟩] rfl rfl (by decide) rfl
      (Or.inr (by decide)) (by decide) (by decide) 1).2.2

/-- C4: decoder errors are sticky and observably distinct from clean
exhaustion.  (i) Once `decoderError` is set, every `Next` returns `false`
with the state unchanged and `Err` returns that same error.  (ii) An advance
that reads a parse error (malformed row, or field count not matching the
canonical header — both surface as `csv.Reader` errors) records it in
`decoderError`, returns `false`, and every subsequent `Next` keeps returning
`false` with `Err` returning that same error.  (iii) After the final source
ends cleanly (input exhausted in normal mode), `Next` returns `false` with
the state unchanged and `Err` returns `none`. -/
theorem decoder_error_handling :
    (∀ (fuel : Nat) (st : CsvIterState) (e : String),
      st.decoderError = some e →
        csvNext fuel st = some (false, st) ∧ Err st = some e) ∧
    (∀ (n : Nat) (st : CsvIterState) (m : String) (meta : SrcMeta) (rest : List RowRead),
      st.hasPending = false → st.decoderError = none → st.header ≠ [] →
      st.input = ⟨.error (.parseFail m), meta⟩ :: rest →
        csvNext (n + 1) st = some (false, parseErrState st m meta rest) ∧
          Err (parseErrState st m meta rest) = some m ∧
          ∀ fuel : Nat,
            csvNext fuel (parseErrState st m meta rest) =
              some (false, parseErrState st m meta rest)) ∧
    (∀ (n : Nat) (st : CsvIterState),
      st.hasPending = false → st.decoderError = none → st.header ≠ [] →
      st.atStart = false → st.input = [] → st.lastSourceMeta.Name ≠ "" →
        csvNext (n + 1) st = some (false, st) ∧ Err st = none) := by
  refine ⟨?_, ?_, ?_⟩
  · intro fuel st e he
    exact ⟨by simp [csvNext, he], he⟩
  · intro n st m meta rest hp he hh hin
    refine ⟨?_, rfl, ?_⟩
    · rw [csvNext_eq_loop (n + 1) st he hh]
      exact csvNextLoop_parse_error n st m meta rest hp hin
    · intro fuel
      simp [csvNext, parseErrState]
  · intro n st hp he hh ha hin hname
    refine ⟨?_, he⟩
    rw [csvNext_eq_loop (n + 1) st he hh]
    exact csvNextLoop_exhausted n st hp hin
      (by simp [ha, isSourceStart_self st.lastSourceMeta hname])

/-- Decoder state with a sticky error already set. -/
def c4ErrState : CsvIterState :=
  { c1State with decoderError := some "record on line 3: wrong number of fields", input := [] }

/-- Decoder state about to read a parse error. -/
def c4ParseState : CsvIterState :=
  { c1State with
      input := [⟨.error (.parseFail "record on line 3: wrong number of fields"), ⟨"S1", 20⟩⟩] }

/-- Decoder state cleanly exhausted. -/
def c4CleanState : CsvIterState :=
  { c1State with input := [] }

/-- Witness for C4: each of the three conjuncts applied at a concrete
state. -/
theorem decoder_error_handling_witness :
    (csvNext 5 c4ErrState = some (false, c4ErrState) ∧
      Err c4ErrState = some "record on line 3: wrong number of fields") ∧
    (csvNext 3 c4ParseState =
        some (false, parseErrState c4ParseState
          "record on line 3: wrong number of fields" ⟨"S1", 20⟩ []) ∧
      Err (parseErrState c4ParseState
          "record on line 3: wrong number of fields" ⟨"S1", 20⟩ []) =
        some "record on line 3: wrong number of fields" ∧
      ∀ fuel : Nat,
        csvNext fuel (parseErrState c4ParseState
            "record on line 3: wrong number of fields" ⟨"S1", 20⟩ []) =
          some (false, parseErrState c4ParseState
            "record on line 3: wrong number of fields" ⟨"S1", 20⟩ [])) ∧
    (csvNext 7 c4CleanState = some (false, c4CleanState) ∧ Err c4CleanState = none) :=
  ⟨decoder_error_handling.1 5 c4ErrState "record on line 3: wrong number of fields" rfl,
   decoder_error_handling.2.1 2 c4ParseState "record on line 3: wrong number of fields"
      ⟨"S1", 20⟩ [] rfl rfl (by decide) rfl,
   decoder_error_handling.2.2 6 c4CleanState rfl rfl (by decide) rfl rfl (by decide)⟩

/-- C9: `Decode` fails with a configuration error — returning no iterator and
hence zero records — when the header in force (explicit, or inferred from the
first row) contains duplicate field names, and when no explicit header is
configured and the underlying stream produces no first row to infer one
from. -/
theorem decode_configuration_errors :
    (∀ (h : List String) (input : List RowRead) (m0 : SrcMeta),
      h ≠ [] → ¬ h.Nodup →
        csvDecode h input m0 =
          .error ("malformed header: " ++ (validateHeader h).getD "")) ∧
    (∀ (r : List String) (meta : SrcMeta) (rest : List RowRead) (m0 : SrcMeta),
      ¬ r.Nodup →
        csvDecode [] (⟨.ok r, meta⟩ :: rest) m0 =
          .error ("malformed header: " ++ (validateHeader r).getD "")) ∧
    (∀ m0 : SrcMeta,
      csvDecode [] [] m0 = .error "unable to infer header from first record: EOF") ∧
    (∀ (m0 meta : SrcMeta) (rest : List RowRead),
      csvDecode [] (⟨.error .eof, meta⟩ :: rest) m0 =
        .error "unable to infer header from first record: EOF") := by
  refine ⟨?_, ?_, fun m0 => rfl, fun m0 meta rest => rfl⟩
  · intro h input m0 hne hd
    obtain ⟨msg, hv⟩ := validateHeader_of_dup h hd
    have hie : h.isEmpty = false := by
      cases hH : h
      · exact absurd hH hne
      · rfl
    simp [csvDecode, hie, hv]
  · intro r meta rest m0 hd
    obtain ⟨msg, hv⟩ := validateHeader_of_dup r hd
    simp [csvDecode, hv]

/-- Witness for C9: the explicit duplicate header `{col1,col1}`, the inferred
duplicate header `{col1,col1}`, and the empty first input, all fail with the
corresponding configuration error. -/
theorem decode_configuration_errors_witness :
    (csvDecode ["col1", "col1"] [] ⟨"", 0⟩ =
        .error ("malformed header: " ++ (validateHeader ["col1", "col1"]).getD "")) ∧
    (csvDecode [] [⟨.ok ["col1", "col1"], ⟨"S1", 10⟩⟩] ⟨"", 0⟩ =
        .error ("malformed header: " ++ (validateHeader ["col1", "col1"]).getD "")) ∧
    csvDecode [] [] ⟨"", 0⟩ = .error "unable to infer header from first record: EOF" :=
  ⟨decode_configuration_errors.1 ["col1", "col1"] [] ⟨"", 0⟩ (by decide) (by decide),
   decode_configuration_errors.2.1 ["col1", "col1"] ⟨"S1", 10⟩ [] ⟨"", 0⟩ (by decide),
   decode_configuration_errors.2.2.1 ⟨"", 0⟩⟩

/-! ## Helper lemmas: multiplexer -/

theorem muxBytes_append : ∀ (a b : List MuxEvent), muxBytes (a ++ b) = muxBytes a ++ muxBytes b
  | [], b => rfl
  | .data nm bs :: rest, b => by
    show bs ++ muxBytes (rest ++ b) = bs ++ muxBytes rest ++ muxBytes b
    rw [muxBytes_append rest b, List.append_assoc]
  | .boundary m :: rest, b => by
    show muxBytes (rest ++ b) = muxBytes rest ++ muxBytes b
    exact muxBytes_append rest b
  | .fail m :: rest, b => by
    show muxBytes (rest ++ b) = muxBytes rest ++ muxBytes b
    exact muxBytes_append rest b

theorem muxBoundaries_append :
    ∀ (a b : List MuxEvent), muxBoundaries (a ++ b) = muxBoundaries a ++ muxBoundaries b
  | [], b => rfl
  | .data nm bs :: rest, b => by
    show muxBoundaries (rest ++ b) = muxBoundaries rest ++ muxBoundaries b
    exact muxBoundaries_append rest b
  | .boundary m :: rest, b => by
    show m :: muxBoundaries (rest ++ b) = m :: muxBoundaries rest ++ muxBoundaries b
    rw [muxBoundaries_append rest b, List.cons_append]
  | .fail m :: rest, b => by
    show muxBoundaries (rest ++ b) = muxBoundaries rest ++ muxBoundaries b
    exact muxBoundaries_append rest b

theorem muxBoundaries_of_all_data (name : String) :
    ∀ l : List MuxEvent, (∀ ev ∈ l, ∃ b, ev = MuxEvent.data name b) → muxBoundaries l = []
  | [], _ => rfl
  | ev :: rest, h => by
    obtain ⟨b, hb⟩ := h ev (List.mem_cons_self ev rest)
    subst hb
    simp only [muxBoundaries]
    exact muxBoundaries_of_all_data name rest fun e he => h e (List.mem_cons_of_mem _ he)

theorem muxBytes_chunk (name : String) (d : List Char) :
    muxBytes (if d.isEmpty then [] else [MuxEvent.data name d]) = d := by
  cases hd : d with
  | nil => rfl
  | cons a l =>
    show a :: l ++ muxBytes [] = a :: l
    exact List.append_nil _

theorem mem_chunk_data (name : String) (d : List Char) (ev : MuxEvent)
    (hev : ev ∈ (if d.isEmpty then ([] : List MuxEvent) else [MuxEvent.data name d])) :
    ∃ b, ev = MuxEvent.data name b := by
  cases hd : d with
  | nil =>
    rw [hd] at hev
    simp at hev
  | cons a l =>
    rw [hd] at hev
    simp at hev
    exact ⟨_, hev⟩

theorem streamLoop_clean (name : String) :
    ∀ rs : List ReadStep, readsClean rs = true →
      (streamLoop name rs).2.2 = none ∧
      muxBytes (streamLoop name rs).1 = payloadOf rs ∧
      (streamLoop name rs).2.1 = (payloadOf rs).length ∧
      ∀ ev ∈ (streamLoop name rs).1, ∃ b, ev = MuxEvent.data name b
  | [], _ => ⟨rfl, rfl, rfl, by intro ev hev; simp [streamLoop] at hev⟩
  | step :: rest, h => by
    cases herr : step.err with
    | none =>
      have hc : readsClean rest = true := by
        rw [readsClean, herr] at h
        exact h
      obtain ⟨ih1, ih2, ih3, ih4⟩ := streamLoop_clean name rest hc
      rw [streamLoop, herr]
      refine ⟨ih1, ?_, ?_, ?_⟩
      · show muxBytes ((if step.data.isEmpty then [] else [MuxEvent.data name step.data]) ++
            (streamLoop name rest).1) = payloadOf (step :: rest)
        rw [muxBytes_append, muxBytes_chunk, ih2, payloadOf, herr]
      · show step.data.length + (streamLoop name rest).2.1 = (payloadOf (step :: rest)).length
        rw [ih3, payloadOf, herr, List.length_append]
      · show ∀ ev ∈ (if step.data.isEmpty then [] else [MuxEvent.data name step.data]) ++
            (streamLoop name rest).1, ∃ b, ev = MuxEvent.data name b
        intro ev hev
        rcases List.mem_append.mp hev with hev | hev
        · exact mem_chunk_data name step.data ev hev
        · exact ih4 ev hev
    | some re =>
      cases re with
      | eof =>
        rw [streamLoop, herr]
        refine ⟨rfl, ?_, ?_, ?_⟩
        · show muxBytes (if step.data.isEmpty then [] else [MuxEvent.data name step.data]) =
            payloadOf (step :: rest)
          rw [muxBytes_chunk, payloadOf, herr]
        · show step.data.length = (payloadOf (step :: rest)).length
          rw [payloadOf, herr]
        · show ∀ ev ∈ (if step.data.isEmpty then ([] : List MuxEvent)
              else [MuxEvent.data name step.data]), ∃ b, ev = MuxEvent.data name b
          intro ev hev
          exact mem_chunk_data name step.data ev hev
      | fail e =>
        rw [readsClean, herr] at h
        exact absurd h (by simp)

theorem opClean_destruct (op : Opener) (h : opClean op = true) :
    ∃ reads, op.openResult = .ok reads ∧ readsClean reads = true := by
  cases hor : op.openResult with
  | error e => rw [opClean, hor] at h; exact absurd h (by simp)
  | ok reads => rw [opClean, hor] at h; exact ⟨reads, rfl, h⟩

theorem muxGo_clean_split :
    ∀ (good : List Opener) (cur : Option SrcMeta) (tl : List Opener),
      (∀ op ∈ good, opClean op = true) →
      (muxGo cur (good ++ tl)).trace =
          (good.map srcSegment).flatten ++ (muxGo (curAfter cur good) tl).trace ∧
      (muxGo cur (good ++ tl)).finalCurrent = (muxGo (curAfter cur good) tl).finalCurrent ∧
      (muxGo cur (good ++ tl)).terminalErr = (muxGo (curAfter cur good) tl).terminalErr
  | [], cur, tl, _ => by simp [curAfter]
  | op :: good2, cur, tl, h => by
    have hop : opClean op = true := h op (List.mem_cons_self op good2)
    obtain ⟨reads, hor, hrc⟩ := opClean_destruct op hop
    obtain ⟨hout, hbytes, hlen, hdata⟩ := streamLoop_clean op.name reads hrc
    have ih := muxGo_clean_split good2
        (some ⟨op.name, ((srcPayload op).length : Int)⟩) tl
        (fun o ho => h o (List.mem_cons_of_mem _ ho))
    have hpay : srcPayload op = payloadOf reads := by simp [srcPayload, hor]
    have hca : curAfter cur (op :: good2) =
        curAfter (some ⟨op.name, ((srcPayload op).length : Int)⟩) good2 := rfl
    have hseg : srcSegment op =
        MuxEvent.boundary ⟨op.name, 0⟩ :: (streamLoop op.name reads).1 := by
      simp [srcSegment, hor]
    have hgo : muxGo cur ((op :: good2) ++ tl) =
        ⟨MuxEvent.boundary ⟨op.name, 0⟩ :: (streamLoop op.name reads).1 ++
            (muxGo (some ⟨op.name, ((srcPayload op).length : Int)⟩)
              (good2 ++ tl)).trace,
          (muxGo (some ⟨op.name, ((srcPayload op).length : Int)⟩)
            (good2 ++ tl)).finalCurrent,
          (muxGo (some ⟨op.name, ((srcPayload op).length : Int)⟩)
            (good2 ++ tl)).terminalErr⟩ := by
      rw [List.cons_append, muxGo, hor]
      simp only [hout, hlen, hpay]
    rw [hgo, hca]
    refine ⟨?_, ih.2.1, ih.2.2⟩
    rw [ih.1]
    simp [hseg, List.append_assoc]

theorem muxBytes_segments :
    ∀ good : List Opener, (∀ op ∈ good, opClean op = true) →
      muxBytes (good.map srcSegment).flatten = (good.map srcPayload).flatten
  | [], _ => rfl
  | op :: good2, h => by
    have hop : opClean op = true := h op (List.mem_cons_self op good2)
    obtain ⟨reads, hor, hrc⟩ := opClean_destruct op hop
    obtain ⟨hout, hbytes, hlen, hdata⟩ := streamLoop_clean op.name reads hrc
    have ih := muxBytes_segments good2 (fun o ho => h o (List.mem_cons_of_mem _ ho))
    rw [List.map_cons, List.map_cons, List.flatten_cons, List.flatten_cons,
      muxBytes_append, ih]
    have hseg : muxBytes (srcSegment op) = srcPayload op := by
      rw [srcSegment, hor]
      show muxBytes (MuxEvent.boundary ⟨op.name, 0⟩ :: (streamLoop op.name reads).1) = _
      show muxBytes (streamLoop op.name reads).1 = _
      rw [hbytes, srcPayload, hor]
    rw [hseg]

theorem muxBoundaries_segments :
    ∀ good : List Opener, (∀ op ∈ good, opClean op = true) →
      muxBoundaries (good.map srcSegment).flatten =
        good.map (fun op => (⟨op.name, 0⟩ : SrcMeta))
  | [], _ => rfl
  | op :: good2, h => by
    have hop : opClean op = true := h op (List.mem_cons_self op good2)
    obtain ⟨reads, hor, hrc⟩ := opClean_destruct op hop
    obtain ⟨hout, hbytes, hlen, hdata⟩ := streamLoop_clean op.name reads hrc
    have ih := muxBoundaries_segments good2 (fun o ho => h o (List.mem_cons_of_mem _ ho))
    rw [List.map_cons, List.map_cons, List.flatten_cons, muxBoundaries_append, ih]
    have hseg : muxBoundaries (srcSegment op) = [⟨op.name, 0⟩] := by
      rw [srcSegment, hor]
      show (⟨op.name, 0⟩ : SrcMeta) :: muxBoundaries (streamLoop op.name reads).1 = _
      rw [muxBoundaries_of_all_data op.name (streamLoop op.name reads).1 hdata]
    rw [hseg, List.cons_append, List.nil_append]

theorem streamLoop_read_failure (name e : String) (d : List Char) :
    ∀ pre : List ReadStep, (∀ s ∈ pre, s.err = none) →
      (streamLoop name (pre ++ [⟨d, some (.fail e)⟩])).1 =
          muxDataEvents name pre ++ (if d.isEmpty then [] else [MuxEvent.data name d]) ++
            [MuxEvent.fail ("read " ++ name ++ ": " ++ e)] ∧
      (streamLoop name (pre ++ [⟨d, some (.fail e)⟩])).2.1 =
          ((pre.map ReadStep.data).flatten ++ d).length ∧
      (streamLoop name (pre ++ [⟨d, some (.fail e)⟩])).2.2 =
          some ("read " ++ name ++ ": " ++ e)
  | [], _ => by
    rw [List.nil_append, streamLoop]
    exact ⟨rfl, rfl, rfl⟩
  | step :: pre2, h => by
    have hse : step.err = none := h step (List.mem_cons_self step pre2)
    obtain ⟨ih1, ih2, ih3⟩ :=
      streamLoop_read_failure name e d pre2 (fun s hs => h s (List.mem_cons_of_mem _ hs))
    rw [List.cons_append, streamLoop, hse]
    refine ⟨?_, ?_, ih3⟩
    · show (if step.data.isEmpty then [] else [MuxEvent.data name step.data]) ++
          (streamLoop name (pre2 ++ [⟨d, some (.fail e)⟩])).1 = _
      rw [ih1, muxDataEvents]
      simp [List.append_assoc]
    · show step.data.length +
          (streamLoop name (pre2 ++ [⟨d, some (.fail e)⟩])).2.1 = _
      rw [ih2, List.map_cons, List.flatten_cons]
      simp [List.length_append, Nat.add_assoc]

theorem muxDataEvents_bytes (name : String) :
    ∀ pre : List ReadStep, muxBytes (muxDataEvents name pre) = (pre.map ReadStep.data).flatten
  | [] => rfl
  | step :: pre2 => by
    rw [muxDataEvents, muxBytes_append, muxBytes_chunk, muxDataEvents_bytes name pre2,
      List.map_cons, List.flatten_cons]

theorem muxGo_nil (cur : Option SrcMeta) : muxGo cur [] = ⟨[], cur, none⟩ := rfl

theorem muxGo_openfail_cons (cur : Option SrcMeta) (name e : String) (rest : List Opener) :
    muxGo cur (⟨name, Except.error e⟩ :: rest) =
      ⟨[.fail ("open " ++ name ++ ": " ++ e)], cur, some ("open " ++ name ++ ": " ++ e)⟩ :=
  rfl

/-- A source whose open succeeds and whose reads deliver the chunks of `pre`
followed by one read returning `d` together with a non-`io.EOF` error. -/
def failingSrc (name e : String) (pre : List ReadStep) (d : List Char) : Opener :=
  ⟨name, .ok (pre ++ [⟨d, some (.fail e)⟩])⟩

theorem muxGo_failing_cons (cur : Option SrcMeta) (name e : String) (pre : List ReadStep)
    (d : List Char) (rest : List Opener) (hpre : ∀ s ∈ pre, s.err = none) :
    muxGo cur (failingSrc name e pre d :: rest) =
      ⟨MuxEvent.boundary ⟨name, 0⟩ ::
          (muxDataEvents name pre ++ (if d.isEmpty then [] else [MuxEvent.data name d]) ++
            [MuxEvent.fail ("read " ++ name ++ ": " ++ e)]),
        some ⟨name, (((pre.map ReadStep.data).flatten ++ d).length : Int)⟩,
        some ("read " ++ name ++ ": " ++ e)⟩ := by
  obtain ⟨f1, f2, f3⟩ := streamLoop_read_failure name e d pre hpre
  rw [muxGo]
  simp only [failingSrc, f3, f1, f2]

/-! ## Claim theorems: multiplexer -/

/-- C5: for sources that open and read without error, fully draining the
merged stream yields exactly the concatenation of their payloads in list
order, followed by clean end-of-stream (`terminalErr = none`); and for an
empty source list the run delivers no bytes, `Read` reports clean end of
stream immediately, and `AwaitBoundary` returns clean end of stream from the
drained-and-closed mailbox. -/
theorem mux_concatenation (ops : List Opener) (h : ∀ op ∈ ops, opClean op = true) :
    muxBytes (muxRun ops).trace = (ops.map srcPayload).flatten ∧
    (muxRun ops).terminalErr = none ∧
    muxRun [] = ⟨[], none, none⟩ ∧
    AwaitBoundary (mailboxAfterRun []) = (.eofReached, ⟨[], true⟩) := by
  obtain ⟨s1, s2, s3⟩ := muxGo_clean_split ops none [] h
  rw [List.append_nil] at s1 s2 s3
  refine ⟨?_, ?_, rfl, rfl⟩
  · show muxBytes (muxGo none ops).trace = _
    rw [s1, muxGo_nil]
    show muxBytes ((ops.map srcSegment).flatten ++ []) = _
    rw [List.append_nil, muxBytes_segments ops h]
  · show (muxGo none ops).terminalErr = none
    rw [s3, muxGo_nil]

/-- Two clean sources, as in the repository's multiplexer test:
`a = "hello"`, `b = "WORLD"`. -/
def demoOps : List Opener :=
  [⟨"a", .ok [⟨"hello".toList, some .eof⟩]⟩, ⟨"b", .ok [⟨"WORLD".toList, some .eof⟩]⟩]

/-- Witness for C5 at the concrete sources `a = "hello"`, `b = "WORLD"`:
the merged stream is `"helloWORLD"` and the terminal error is `none`. -/
theorem mux_concatenation_witness :
    muxBytes (muxRun demoOps).trace = "helloWORLD".toList ∧
      (muxRun demoOps).terminalErr = none :=
  ⟨(mux_concatenation demoOps (by decide)).1.trans rfl,
   (mux_concatenation demoOps (by decide)).2.1⟩

/-- Two sources that both open successfully, but the first one's single read
fails before `io.EOF`. -/
def c6Ops : List Opener :=
  [⟨"a", .ok [⟨[], some (.fail "boom")⟩]⟩, ⟨"b", .ok [⟨[], some .eof⟩]⟩]

/-- C6 counterexample.  The claim asserts that a run over `N` sources that
all open successfully publishes exactly `N` boundary events.  In `c6Ops`
both sources open successfully (`opensOk` holds for each), yet the run
publishes only the boundary of source `a`: source `a`'s read failure aborts
the whole stream before source `b` is ever opened, so its boundary never
occurs and only 1 ≠ 2 boundary events are published. -/
theorem c6_claim_counterexample :
    (∀ op ∈ c6Ops, opensOk op = true) ∧ c6Ops.length = 2 ∧
      muxBoundaries (muxRun c6Ops).trace = [⟨"a", 0⟩] :=
  ⟨by decide, rfl, rfl⟩

/-- C6 (amended): for every run over N sources that all open successfully
and whose reads all complete without error, exactly N boundary events are
published, in source-list order, each with `ByteOffset = 0`; the trace is the
concatenation of per-source segments, and each source's segment is its
boundary event followed only by that source's data events, so each boundary
is published strictly before any byte of its source is delivered. -/
theorem mux_boundary_events (ops : List Opener) (h : ∀ op ∈ ops, opClean op = true) :
    (muxRun ops).trace = (ops.map srcSegment).flatten ∧
    muxBoundaries (muxRun ops).trace = ops.map (fun op => (⟨op.name, 0⟩ : SrcMeta)) ∧
    ∀ op ∈ ops, ∃ reads, op.openResult = .ok reads ∧
      srcSegment op = MuxEvent.boundary ⟨op.name, 0⟩ :: (streamLoop op.name reads).1 ∧
      ∀ ev ∈ (streamLoop op.name reads).1, ∃ b, ev = MuxEvent.data op.name b := by
  obtain ⟨s1, s2, s3⟩ := muxGo_clean_split ops none [] h
  rw [List.append_nil] at s1
  have htr : (muxRun ops).trace = (ops.map srcSegment).flatten := by
    show (muxGo none ops).trace = _
    rw [s1, muxGo_nil]
    exact List.append_nil _
  refine ⟨htr, ?_, ?_⟩
  · rw [htr]
    exact muxBoundaries_segments ops h
  · intro op hop
    obtain ⟨reads, hor, hrc⟩ := opClean_destruct op (h op hop)
    obtain ⟨hout, hbytes, hlen, hdata⟩ := streamLoop_clean op.name reads hrc
    exact ⟨reads, hor, by simp [srcSegment, hor], hdata⟩

/-- Witness for the amended C6 at `a = "hello"`, `b = "WORLD"`: exactly the
two boundaries `(a,0)` then `(b,0)` are published. -/
theorem mux_boundary_events_witness :
    muxBoundaries (muxRun demoOps).trace = [⟨"a", 0⟩, ⟨"b", 0⟩] :=
  (mux_boundary_events demoOps (by decide)).2.1.trans rfl

/-- C3: when a source's read yields bytes together with a non-`io.EOF` error,
the bytes are forwarded to the consumer and the published offset is advanced
before the error is surfaced: the drained stream contains every byte obtained
before the failure (including the failing read's own bytes `d`), the final
published `SrcMeta` counts those bytes, the terminal error read from the
stream names the failing source, and in the trace the failing source's data
events all precede its failure event. -/
theorem mux_partial_delivery_before_read_error
    (good : List Opener) (name e : String) (pre : List ReadStep) (d : List Char)
    (rest : List Opener)
    (hg : ∀ op ∈ good, opClean op = true)
    (hpre : ∀ s ∈ pre, s.err = none) (hd : d ≠ []) :
    muxBytes (muxRun (good ++ failingSrc name e pre d :: rest)).trace =
        (good.map srcPayload).flatten ++ ((pre.map ReadStep.data).flatten ++ d) ∧
    (muxRun (good ++ failingSrc name e pre d :: rest)).terminalErr =
        some ("read " ++ name ++ ": " ++ e) ∧
    (muxRun (good ++ failingSrc name e pre d :: rest)).finalCurrent =
        some ⟨name, (((pre.map ReadStep.data).flatten ++ d).length : Int)⟩ ∧
    (muxGo (curAfter none good) (failingSrc name e pre d :: rest)).trace =
        MuxEvent.boundary ⟨name, 0⟩ ::
          (muxDataEvents name pre ++ (if d.isEmpty then [] else [MuxEvent.data name d]) ++
            [MuxEvent.fail ("read " ++ name ++ ": " ++ e)]) := by
  obtain ⟨s1, s2, s3⟩ := muxGo_clean_split good none (failingSrc name e pre d :: rest) hg
  have hf := muxGo_failing_cons (curAfter none good) name e pre d rest hpre
  refine ⟨?_, ?_, ?_, ?_⟩
  · show muxBytes (muxGo none (good ++ failingSrc name e pre d :: rest)).trace = _
    rw [s1, muxBytes_append, muxBytes_segments good hg, hf]
    show (good.map srcPayload).flatten ++
        muxBytes (muxDataEvents name pre ++
          (if d.isEmpty then [] else [MuxEvent.data name d]) ++
          [MuxEvent.fail ("read " ++ name ++ ": " ++ e)]) = _
    rw [muxBytes_append, muxBytes_append, muxBytes_chunk, muxDataEvents_bytes]
    show (good.map srcPayload).flatten ++
        ((pre.map ReadStep.data).flatten ++ d ++ []) = _
    rw [List.append_nil]
  · show (muxGo none (good ++ failingSrc name e pre d :: rest)).terminalErr = _
    rw [s3, hf]
  · show (muxGo none (good ++ failingSrc name e pre d :: rest)).finalCurrent = _
    rw [s2, hf]
  · rw [hf]

/-- Witness for C3 at the repository's own test scenario: source `a` whose
only read yields `"abc"` together with a failure; the consumer receives
`"abc"` before the terminal error `read a: ...` and the published offset is
3. -/
theorem mux_partial_delivery_witness :
    muxBytes (muxRun [failingSrc "a" "injected read error" [] "abc".toList]).trace =
        "abc".toList ∧
    (muxRun [failingSrc "a" "injected read error" [] "abc".toList]).terminalErr =
        some "read a: injected read error" ∧
    (muxRun [failingSrc "a" "injected read error" [] "abc".toList]).finalCurrent =
        some ⟨"a", 3⟩ := by
  have h := mux_partial_delivery_before_read_error [] "a" "injected read error" []
      "abc".toList [] (by decide) (by decide) (by decide)
  exact ⟨h.1.trans rfl, h.2.1.trans rfl, h.2.2.1.trans rfl⟩

/-- C8: if a source fails to open, the whole stream aborts with a terminal
error naming that source, and the consumer receives exactly the bytes of the
sources before it — nothing from the failing source or any later one. -/
theorem mux_open_failure_aborts (good : List Opener) (name e : String) (rest : List Opener)
    (hg : ∀ op ∈ good, opClean op = true) :
    muxBytes (muxRun (good ++ ⟨name, Except.error e⟩ :: rest)).trace =
        (good.map srcPayload).flatten ∧
    (muxRun (good ++ ⟨name, Except.error e⟩ :: rest)).terminalErr =
        some ("open " ++ name ++ ": " ++ e) := by
  obtain ⟨s1, s2, s3⟩ := muxGo_clean_split good none (⟨name, Except.error e⟩ :: rest) hg
  constructor
  · show muxBytes (muxGo none (good ++ ⟨name, Except.error e⟩ :: rest)).trace = _
    rw [s1, muxBytes_append, muxBytes_segments good hg, muxGo_openfail_cons]
    exact List.append_nil _
  · show (muxGo none (good ++ ⟨name, Except.error e⟩ :: rest)).terminalErr = _
    rw [s3, muxGo_openfail_cons]

/-- Witness for C8: a good source `g = "xy"`, then `bad` fails to open, then
a later source; the consumer sees exactly `"xy"` and the error names
`bad`. -/
theorem mux_open_failure_aborts_witness :
    muxBytes (muxRun [⟨"g", .ok [⟨"xy".toList, some .eof⟩]⟩, ⟨"bad", Except.error "boom"⟩,
        ⟨"later", .ok [⟨"zz".toList, some .eof⟩]⟩]).trace = "xy".toList ∧
    (muxRun [⟨"g", .ok [⟨"xy".toList, some .eof⟩]⟩, ⟨"bad", Except.error "boom"⟩,
        ⟨"later", .ok [⟨"zz".toList, some .eof⟩]⟩]).terminalErr = some "open bad: boom" := by
  have h := mux_open_failure_aborts [⟨"g", .ok [⟨"xy".toList, some .eof⟩]⟩] "bad" "boom"
      [⟨"later", .ok [⟨"zz".toList, some .eof⟩]⟩] (by decide)
  exact ⟨h.1.trans rfl, h.2.trans rfl⟩

/-- C7: boundary delivery is coalescing and never blocks the producer —
`overwriteLatest` on the capacity-1 channel always terminates with exactly
the latest value buffered (so a late consumer sees only the latest unread
boundary, never a backlog); and once the producer finishes,
`drainAndCloseChannel` leaves the mailbox empty and closed, after which every
`AwaitBoundary` call returns clean end of stream without blocking. -/
theorem boundary_mailbox_coalescing :
    (∀ (buf : List SrcMeta) (v : SrcMeta), overwriteLatest buf v = [v]) ∧
    (∀ buf : List SrcMeta, drainAndCloseChannel buf = ⟨[], true⟩) ∧
    (∀ buf : List SrcMeta,
      AwaitBoundary (drainAndCloseChannel buf) = (.eofReached, ⟨[], true⟩)) ∧
    (∀ ops : List Opener,
      AwaitBoundary (mailboxAfterRun ops) = (.eofReached, ⟨[], true⟩)) ∧
    AwaitBoundary ⟨[], true⟩ = (.eofReached, ⟨[], true⟩) := by
  have h1 : ∀ (buf : List SrcMeta) (v : SrcMeta), overwriteLatest buf v = [v] := by
    intro buf
    induction buf with
    | nil => intro v; rfl
    | cons a rest ih =>
      intro v
      rw [overwriteLatest]
      exact ih v
  have h2 : ∀ buf : List SrcMeta, drainAndCloseChannel buf = ⟨[], true⟩ := by
    intro buf
    induction buf with
    | nil => rfl
    | cons a rest ih =>
      rw [drainAndCloseChannel]
      exact ih
  refine ⟨h1, h2, ?_, ?_, rfl⟩
  · intro buf
    rw [h2]
    rfl
  · intro ops
    rw [mailboxAfterRun, h2]
    rfl

/-- C10: before the producer has ever stored a snapshot, `Current()` returns
the zero-valued `SrcMeta` (`Name = ""`, `ByteOffset = 0`) rather than
blocking or failing; and over an empty source list the producer never stores
a snapshot, so `Current()` returns the zero value for the whole run. -/
theorem current_zero_value :
    Current none = ⟨"", 0⟩ ∧
    (muxRun []).finalCurrent = none ∧
    Current (muxRun []).finalCurrent = ⟨"", 0⟩ :=
  ⟨rfl, rfl, rfl⟩

end Cetl
